import Mathlib

/-!
Shallow embedding of the core of the ppos kernel (repository ppodds/osc2024),
restricted to the data structures and operations that the checked claims are
about.  Every definition mirrors one Rust function of the repository; the file
and function are named in each doc comment.  Machine integers are modelled as
`Nat`/`Int`; a Rust `panic!` or out-of-bounds index is modelled as an explicit
`panic` result constructor; a Rust `Result` becomes `Except String`.
-/

namespace Ppos

/-! ## Buddy page allocator
`src/bins/ppos/src/memory/buddy_page_allocator.rs` -/

def PAGE_SIZE : Nat := 4096

namespace Buddy

def MAX_ORDER : Nat := 11

/-- The per-order free lists (`frame_free_list`): order `k` maps to the list
of free frame indices at that order, front of the Rust linked list first.
Orders above `MAX_ORDER` are unused (the Rust array has `MAX_ORDER + 1`
entries). -/
def FrameFreeList : Type := Nat → List Nat

def update (fl : FrameFreeList) (o : Nat) (l : List Nat) : FrameFreeList :=
  fun k => if k = o then l else fl k

/-- `BuddyPageAllocator::find_buddy_index`: `frame_index ^ (1 << frame_order)`. -/
def find_buddy_index (frame_index frame_order : Nat) : Nat :=
  frame_index ^^^ (1 <<< frame_order)

/-- Remove the first node whose `frame_index` equals `x` — the effect of the
scan-and-`remove` loop in `BuddyPageAllocator::merge_buddy`. -/
def remove_first (l : List Nat) (x : Nat) : List Nat :=
  match l with
  | [] => []
  | a :: rest => if a = x then rest else a :: remove_first rest x

/-- Structural core of `BuddyPageAllocator::merge_buddy`.  The first argument
is `MAX_ORDER + 1 - frame_order`; since the recursion stops at
`frame_order = MAX_ORDER` it never reaches `0` when entered at
`frame_order ≤ MAX_ORDER`, so this is exactly the source recursion.
(Calling the Rust function with `frame_order > MAX_ORDER` indexes the
free-list array out of bounds; that is outside the modelled domain.) -/
def merge_buddy_go (fi : Nat) : Nat → FrameFreeList → Nat → FrameFreeList
  | 0, fl, _ => fl
  | gas + 1, fl, fo =>
    if fo = MAX_ORDER then fl
    else
      let buddy_index := find_buddy_index fi fo
      if (fl fo).contains buddy_index then
        merge_buddy_go fi gas (update fl fo (remove_first (fl fo) buddy_index)) (fo + 1)
      else fl

/-- `BuddyPageAllocator::merge_buddy`: if the buddy of `frame_index` at
`frame_order` is in the order-`frame_order` free list, remove it and recurse
at `frame_order + 1`; stop at `MAX_ORDER`.  Note that the function only ever
*removes* nodes: the caller `free_page` pushes `frame_index` afterwards. -/
def merge_buddy (fl : FrameFreeList) (frame_index frame_order : Nat) : FrameFreeList :=
  merge_buddy_go frame_index (MAX_ORDER + 1 - frame_order) fl frame_order

/-- Allocator state: the free lists plus the `boundary` pair
`(page_start_addr, page_end_addr)` fixed at `init`. -/
structure BuddyState where
  frame_free_list : FrameFreeList
  boundary : Nat × Nat

/-- `BuddyPageAllocator::free_page`.  After the alignment and range checks it
calls `merge_buddy` and then pushes `frame_index` to the front of the free
list of the *original* `order` argument.  (`page_start_addr` below
`boundary.0` would wrap the Rust `usize` subtraction; the claims only
evaluate the function with `page_start_addr ≥ boundary.0`.) -/
def free_page (s : BuddyState) (page_start_addr order : Nat) :
    Except String BuddyState :=
  if page_start_addr % PAGE_SIZE ≠ 0 then
    .error "Page start address should align to page size"
  else
    let frame_index := (page_start_addr - s.boundary.1) / PAGE_SIZE
    let max_frame_index := (s.boundary.2 - s.boundary.1) / PAGE_SIZE - 1
    if max_frame_index < frame_index then
      .error "Provide page start address is not a valid frame start address"
    else
      let fl := merge_buddy s.frame_free_list frame_index order
      .ok ⟨update fl order (frame_index :: fl order), s.boundary⟩

/-- All free lists empty: the state of a fully allocated 2-frame region
`[0, 0x2000)`.  Used to replay the claim's "free both halves" scenario. -/
def twoFrameBusy : BuddyState :=
  ⟨fun _ => [], (0, 2 * PAGE_SIZE)⟩

/-- The split loop of `BuddyPageAllocator::alloc_page`: starting from the
popped block's order `ro`, halve `ro - order` times, each time pushing the
upper half (`free_frame_index + 2^(ro-1)`) onto the next lower free list. -/
def split_release : FrameFreeList → Nat → Nat → Nat → FrameFreeList
  | fl, _, _, 0 => fl
  | fl, idx, ro, k + 1 =>
    let ro2 := ro - 1
    let rel := idx + (1 <<< ro2)
    split_release (update fl ro2 (rel :: fl ro2)) idx ro2 k

/-- `BuddyPageAllocator::alloc_page(order)`: reject orders above `MAX_ORDER`,
find the first non-empty free list at or above `order` (error when none up to
`MAX_ORDER`), pop its front, push the unused halves back down to `order`, and
return `boundary.0 + free_frame_index * PAGE_SIZE`.  The inner `[]` case is
unreachable (`pop_front().unwrap()` on a list the scan found non-empty). -/
def alloc_page (s : BuddyState) (order : Nat) :
    Except String (Nat × BuddyState) :=
  if MAX_ORDER < order then .error "Request order is too big"
  else
    match (List.range' order (MAX_ORDER + 1 - order)).find?
        (fun o => !(s.frame_free_list o).isEmpty) with
    | none => .error "There is no enough memory for now"
    | some ro =>
      match s.frame_free_list ro with
      | [] => .error "There is no enough memory for now"
      | free_frame_index :: rest =>
        let fl := split_release (update s.frame_free_list ro rest)
          free_frame_index ro (ro - order)
        .ok (s.boundary.1 + free_frame_index * PAGE_SIZE, ⟨fl, s.boundary⟩)

end Buddy

/-! ## Round-robin scheduler
`src/bins/ppos/src/scheduler/round_robin_scheduler.rs` -/

namespace Sched

/-- `TaskState` (`src/bins/ppos/src/scheduler/task.rs`), the variants the
scheduler inspects. -/
inductive TaskState where
  | Running
  | Dead
  | Interruptible
  | Zombie
deriving DecidableEq, Repr

structure Task where
  id : Nat
  state : TaskState
deriving DecidableEq, Repr

/-- Outcome of one `RoundRobinScheduler::_schedule()` call. -/
inductive ScheduleResult where
  /-- `switch_to(current, next)` is reached: `next` is the task switched to
  and `queue` is the run queue at that moment. -/
  | switchTo (next : Task) (queue : List Task)
  /-- `panic!("No task to run!")`. -/
  | panicEmpty
deriving DecidableEq, Repr

/-- The loop of `RoundRobinScheduler::_schedule`, with fuel (`none` models the
loop spinning without ever reaching a Running task).  Each iteration pops the
front task, reads its state, pushes it to the back *unconditionally*, and
switches to it only when the state is `Running`; an empty queue panics. -/
def scheduleLoop : Nat → List Task → Option ScheduleResult
  | 0, _ => none
  | _ + 1, [] => some .panicEmpty
  | fuel + 1, t :: rest =>
    if t.state = .Running then some (.switchTo t (rest ++ [t]))
    else scheduleLoop fuel (rest ++ [t])

end Sched

/-! ## Fixed-size table (the VFS open-file table)
`src/libs/library/src/collections/fixed_size_table.rs`; instantiated with
1024 slots by `VirtualFileSystem` (`src/bins/ppos/src/file_system.rs`,
`KERNEL_MAX_OPEN_FILES`), whose `open` is a direct call to `add` and whose
`close` is a direct call to `remove`. -/

namespace FST

structure FixedSizeTable (T : Type) where
  table : List (Option T)
  cursor : Nat
  amount : Nat
deriving DecidableEq, Repr

/-- Outcome of `FixedSizeTable::add`. -/
inductive AddResult (T : Type) where
  | ok (index : Nat) (t : FixedSizeTable T)
  | err (msg : String)
  /-- A Rust index-out-of-bounds panic in `self.table[index]`. -/
  | panic
  /-- The scan loop never terminates (fuel exhausted). -/
  | hang
deriving DecidableEq, Repr

/-- The scan loop of `FixedSizeTable::add`: starting at `self.cursor`, index
the table (a panic when the index is out of range — the initial cursor is
used *unreduced*), skip occupied slots modulo the size, and store the item at
the first free slot, setting `cursor = index + 1`.  `amount` is **not**
incremented — the source has no `self.amount += 1`. -/
def addLoop {T : Type} (item : T) : Nat → FixedSizeTable T → Nat → AddResult T
  | 0, _, _ => .hang
  | fuel + 1, t, index =>
    if h : index < t.table.length then
      match t.table.get ⟨index, h⟩ with
      | some _ => addLoop item fuel t ((index + 1) % t.table.length)
      | none => .ok index ⟨t.table.set index (some item), index + 1, t.amount⟩
    else .panic

/-- `FixedSizeTable::add`.  The `is_full` guard compares `amount` with the
table length, but `amount` is never incremented by `add`, so the guard can
fire only after `remove` underflows it. -/
def add {T : Type} (t : FixedSizeTable T) (item : T) : AddResult T :=
  if t.amount = t.table.length then .err "FixedSizeTable is full"
  else addLoop item (t.table.length + 1) t t.cursor

/-- `FixedSizeTable::remove`.  (`self.amount -= 1` underflows the Rust
`usize` when `amount = 0`; truncated `Nat` subtraction stands in for the
release-build wrap — either way `amount ≠ table.len()` keeps holding in the
states the claims evaluate, which is all `add` looks at.) -/
def remove {T : Type} (t : FixedSizeTable T) (index : Nat) :
    Except String (T × FixedSizeTable T) :=
  if h : index < t.table.length then
    match t.table.get ⟨index, h⟩ with
    | some item => .ok (item, ⟨t.table.set index none, t.cursor, t.amount - 1⟩)
    | none => .error "no item at the index"
  else .error "index out of range"

/-- `FixedSizeTable::new(size)`. -/
def new (T : Type) (size : Nat) : FixedSizeTable T :=
  ⟨List.replicate size none, 0, 0⟩

/-- The table after `k` successful `add x` calls on `new T S`: the first `k`
slots occupied, `cursor = k`, and `amount` still `0`. -/
def filled {T : Type} (x : T) (S k : Nat) : FixedSizeTable T :=
  ⟨List.replicate k (some x) ++ List.replicate (S - k) none, k, 0⟩

/-- The state reached by an `add` that returned `ok` (identity otherwise);
used to iterate `add`. -/
def addOkState {T : Type} (t : FixedSizeTable T) (item : T) : FixedSizeTable T :=
  match add t item with
  | .ok _ t' => t'
  | _ => t

end FST

/-! ## Timer service
`src/libs/device/src/timer.rs` -/

namespace Timer

structure TimeoutDescriptor where
  time : Nat
  handler : Nat
deriving DecidableEq, Repr

/-- Timer state: the deadline-ordered `timeout_handler_list` plus the value
last written to the `CNTP_CVAL_EL0` compare register by `set_timeout_at`. -/
structure TimerState where
  list : List TimeoutDescriptor
  cval : Nat
deriving DecidableEq, Repr

/-- Deadline order on descriptors. -/
def timeLE (a b : TimeoutDescriptor) : Prop := a.time ≤ b.time

/-- Body of `Timer::set_timeout_raw` once `time_to_run_handler = t` is
computed, by cases on the `timeout_handler_list` (`cval` is the current
`CNTP_CVAL_EL0` value).  `none` models the final `panic!("unreachable")`.
Branches in source order: push-front when the list is empty or the head is
later (and reprogram `CNTP_CVAL_EL0`); push-back when the back is earlier (no
reprogram); otherwise the `O(n)` scan from index `1` inserts before the first
strictly later deadline — and *also* writes `CNTP_CVAL_EL0`, to the inserted
deadline. -/
def set_timeout_insert (cval t handler : Nat) :
    List TimeoutDescriptor → Option TimerState
  | [] => some ⟨[⟨t, handler⟩], t⟩
  | hd :: tl =>
    if t < hd.time then some ⟨⟨t, handler⟩ :: hd :: tl, t⟩
    else if ((hd :: tl).getLast (List.cons_ne_nil hd tl)).time < t then
      some ⟨(hd :: tl) ++ [⟨t, handler⟩], cval⟩
    else
      match tl.findIdx? (fun d => decide (t < d.time)) with
      | some j => some ⟨(hd :: tl).insertIdx (j + 1) ⟨t, handler⟩, t⟩
      | none => none

/-- `Timer::set_timeout_raw(duration, handler)` at `current_time() = now`:
`time_to_run_handler = now + duration`. -/
def set_timeout_raw (s : TimerState) (now duration handler : Nat) :
    Option TimerState :=
  set_timeout_insert s.cval (now + duration) handler s.list

end Timer

/-! ## Per-task memory map
`src/bins/ppos/src/memory/paging/memory_mapping.rs` -/

namespace MMap

/-- `MemoryMappingInfo`.  The attribute fields (`memory_attribute`,
`access_permission`, `execute_permission`) are carried through unchanged by
the operations modelled here; they are represented as plain numbers. -/
structure MemoryMappingInfo where
  virt_addr : Nat
  phys_addr : Option Nat
  memory_attribute : Nat
  access_permission : Nat
  execute_permission : Nat
  size : Nat
  /-- Identity of the owned backing buffer (`Option<Rc<AllocatedMemory>>`). -/
  physical_memory : Option Nat
deriving DecidableEq, Repr

/-- `MemoryMapping::is_overlaps`: the four-disjunct byte-interval test of the
requested `[virt_addr, virt_addr + size)` against every existing region. -/
def is_overlaps (list : List MemoryMappingInfo) (virt_addr size : Nat) : Bool :=
  list.any fun x =>
    let start := x.virt_addr
    let stop := x.virt_addr + x.size
    let new_start := virt_addr
    let new_stop := virt_addr + size
    decide ((start ≤ new_start ∧ new_start < stop)
      ∨ (start < new_stop ∧ new_stop ≤ stop)
      ∨ (new_start ≤ start ∧ start < new_stop)
      ∨ (new_start < stop ∧ stop ≤ new_stop))

/-- `MemoryMapping::map_pages`.  The region list is the only state touched:
the source function installs **no** page-table entry.  The insertion index is
`partition_point(|x| x.virt_addr < virt_addr)`, which on a `virt_addr`-sorted
list is the length of the longest prefix of smaller `virt_addr`s. -/
def map_pages (list : List MemoryMappingInfo) (virt_addr : Nat)
    (phys_addr : Option Nat) (size : Nat)
    (memory_attribute access_permission execute_permission : Nat)
    (physical_memory : Option Nat) : Except String (List MemoryMappingInfo) :=
  if phys_addr.isNone ∧ physical_memory.isSome then
    .error "phys_addr is required when physical_memory is provided"
  else if is_overlaps list virt_addr size then
    .error "MemoryMappingInfo overlaps"
  else
    let i := (list.takeWhile (fun x => decide (x.virt_addr < virt_addr))).length
    .ok (list.insertIdx i ⟨virt_addr, phys_addr, memory_attribute,
      access_permission, execute_permission, size, physical_memory⟩)

/-- Result of `MemoryMapping::get_available_virt_addr`. -/
inductive VirtAddrResult where
  | ok (addr : Nat)
  | error (msg : String)
  /-- The loop indexes `memory_mapping_info_list[i]` past the end of the
  vector: a Rust index-out-of-bounds panic. -/
  | panic
deriving DecidableEq, Repr

/-- The loop of `get_available_virt_addr`: `i` walks the region list while
`start_addr` tracks the end of the last region skipped; the list index is
*not* bounds-checked, so running off the end is a panic. -/
def get_available_loop (size : Nat) :
    List MemoryMappingInfo → Nat → VirtAddrResult
  | [], start_addr =>
    if start_addr < 0xffffffffffff then .panic
    else .error "No available virtual address"
  | info :: rest, start_addr =>
    if start_addr < 0xffffffffffff then
      if info.virt_addr < start_addr + size then
        get_available_loop size rest (info.virt_addr + info.size)
      else .ok start_addr
    else .error "No available virtual address"

/-- `MemoryMapping::get_available_virt_addr(size)`. -/
def get_available_virt_addr (list : List MemoryMappingInfo) (size : Nat) :
    VirtAddrResult :=
  if list.isEmpty then .ok 0 else get_available_loop size list 0

/-- Byte intersection of the request with a region: the two half-open
intervals share at least one address. -/
def intersects (r : MemoryMappingInfo) (virt_addr size : Nat) : Prop :=
  r.virt_addr < virt_addr + size ∧ virt_addr < r.virt_addr + r.size

instance (r : MemoryMappingInfo) (virt_addr size : Nat) :
    Decidable (intersects r virt_addr size) := by
  unfold intersects
  infer_instance

/-- Sorted-by-`virt_addr` order. -/
def vaLE (a b : MemoryMappingInfo) : Prop := a.virt_addr ≤ b.virt_addr

end MMap

/-! ## tmpfs file read/write
`src/bins/ppos/src/file_system/tmpfs.rs` (`TmpFSFile::read`,
`TmpFSFile::write`).  The file-handle `position` lives in `File`
(`src/bins/ppos/src/file_system/file.rs`); content bytes are `Nat`s and the
caller's buffer is a `List Nat` of the slice's length.  `usize` subtraction
follows release-build semantics (wrap modulo `2^64`); the copy loops index
both slices, so an index at or past a length is a panic. -/

namespace Tmpfs

def USIZE_MOD : Nat := 2 ^ 64

/-- Outcome of `TmpFSFile::read`: bytes read, handle position after the
call, and the caller's buffer after the copy loop. -/
inductive ReadResult where
  | ok (n : Nat) (pos : Nat) (buf : List Nat)
  | error (msg : String)
  /-- The copy loop `buf[i] = content[i]` indexes a slice out of bounds. -/
  | panic
deriving DecidableEq, Repr

/-- Outcome of `TmpFSFile::write`: bytes written, resulting content, and
handle position after the call. -/
inductive WriteResult where
  | ok (n : Nat) (content : List Nat) (pos : Nat)
  /-- The copy loop indexes a slice out of bounds. -/
  | panic
deriving DecidableEq, Repr

/-- `for i in start..end { buf[i] = content[i] }` of `read`, with the
iteration count as fuel (the in-bounds guard of the caller makes the `getD`
default unreachable). -/
def copyLoop (c : List Nat) : Nat → Nat → List Nat → List Nat
  | 0, _, buf => buf
  | n + 1, i, buf => copyLoop c n (i + 1) (buf.set i (c.getD i 0))

/-- `for i in start..end { content[i] = buf[i] }` of `write`. -/
def writeLoop (buf : List Nat) : Nat → Nat → List Nat → List Nat
  | 0, _, c => c
  | n + 1, i, c => writeLoop buf n (i + 1) (c.set i (buf.getD i 0))

/-- `TmpFSFile::read(buf, len)` on an inode whose `content` is `content`,
with the handle at `pos`.  A `None` content is an error; empty content
returns `0` before any position arithmetic; otherwise
`readable_len = content.len() - start` (wrapping), `read_len =
min(readable_len, len)`, the loop copies `content[start..end]` into
`buf[start..end]`, and the position becomes `end`. -/
def read (content : Option (List Nat)) (pos : Nat) (buf : List Nat)
    (len : Nat) : ReadResult :=
  match content with
  | none => .error "No content in the inode"
  | some c =>
    if c.length = 0 then .ok 0 pos buf
    else
      let readable_len := (c.length + USIZE_MOD - pos) % USIZE_MOD
      let read_len := min readable_len len
      let e := pos + read_len
      if read_len = 0 ∨ (e ≤ c.length ∧ e ≤ buf.length) then
        .ok read_len e (copyLoop c read_len pos buf)
      else .panic

/-- `TmpFSFile::write(buf, len)`.  First write (content `None`): allocate
`vec![0; len]`, copy `buf[0..len]` into it, return `len` — **without**
touching the position.  Subsequent writes: `writable_len = content.len() -
start` (wrapping), `write_len = min(writable_len, len)`, copy
`buf[start..end]` into `content[start..end]`, set position to `end`, return
`write_len`. -/
def write (content : Option (List Nat)) (pos : Nat) (buf : List Nat)
    (len : Nat) : WriteResult :=
  match content with
  | none =>
    if len ≤ buf.length then
      .ok len (writeLoop buf len 0 (List.replicate len 0)) pos
    else .panic
  | some c =>
    let writable_len := (c.length + USIZE_MOD - pos) % USIZE_MOD
    let write_len := min writable_len len
    let e := pos + write_len
    if write_len = 0 ∨ (e ≤ c.length ∧ e ≤ buf.length) then
      .ok write_len (writeLoop buf write_len pos c) e
    else .panic

end Tmpfs

/-! ## Slab allocator
`src/bins/ppos/src/memory/slab_allocator.rs`, over the buddy allocator and a
byte-addressed memory.  `next_power_of_two`, `trailing_zeros` and `ilog2` are
the Rust `usize` primitives, implemented by fuelled structural recursion with
the same values on the domain used here. -/

namespace Slab

def MAX_SLAB_SIZE : Nat := 1024
def MIN_SLAB_SIZE_SHIFT : Nat := 3
def MIN_SLAB_SIZE : Nat := 8

/-- Byte-addressed memory. -/
def Mem : Type := Nat → Nat

def writeByte (m : Mem) (a v : Nat) : Mem :=
  fun x => if x = a then v else m x

/-- Store the low `k` bytes of `w` at `a`, little-endian (a `usize` store). -/
def writeBytesLE : Mem → Nat → Nat → Nat → Mem
  | m, _, _, 0 => m
  | m, a, w, k + 1 => writeBytesLE (writeByte m a (w % 256)) (a + 1) (w / 256) k

def writeWord (m : Mem) (a w : Nat) : Mem := writeBytesLE m a w 8

/-- Read `k` bytes at `a`, little-endian (a `usize` load). -/
def readBytesLE : Mem → Nat → Nat → Nat
  | _, _, 0 => 0
  | m, a, k + 1 => m a + 256 * readBytesLE m (a + 1) k

def readWord (m : Mem) (a : Nat) : Nat := readBytesLE m a 8

/-- `core::slice::fill(0)` over `[a, a + n)`. -/
def fillZero : Mem → Nat → Nat → Mem
  | m, _, 0 => m
  | m, a, n + 1 => fillZero (writeByte m a 0) (a + 1) n

/-- The loop of `SlabNode::init`: write `k` node words, each pointing to the
block `size` bytes further. -/
def initNodes : Mem → Nat → Nat → Nat → Mem
  | m, _, _, 0 => m
  | m, size, p, k + 1 => initNodes (writeWord m p (p + size)) size (p + size) k

/-- `SlabNode::init(size, ptr)`: thread `PAGE_SIZE / size` free nodes through
the fresh page, then null out the last node. -/
def slab_node_init (m : Mem) (size ptr : Nat) : Mem :=
  writeWord (initNodes m size ptr (PAGE_SIZE / size)) (ptr + PAGE_SIZE - size) 0

/-- `usize::next_power_of_two` (fuelled doubling; `0 → 1`). -/
def npotGo (n : Nat) : Nat → Nat → Nat
  | acc, 0 => acc
  | acc, fuel + 1 => if n ≤ acc then acc else npotGo n (2 * acc) fuel

def next_power_of_two (n : Nat) : Nat := npotGo n 1 n

/-- `usize::trailing_zeros` on positive values (fuelled halving). -/
def tzGo : Nat → Nat → Nat
  | _, 0 => 0
  | v, fuel + 1 => if v % 2 = 1 ∨ v = 0 then 0 else tzGo (v / 2) fuel + 1

def trailing_zeros (v : Nat) : Nat := tzGo v v

/-- `usize::ilog2` on positive values (fuelled halving). -/
def ilog2Go : Nat → Nat → Nat
  | _, 0 => 0
  | v, fuel + 1 => if v ≤ 1 then 0 else ilog2Go (v / 2) fuel + 1

def ilog2 (v : Nat) : Nat := ilog2Go v v

/-- `round_up_with(v, s) = (v + s - 1) & !(s - 1)` with a 64-bit complement
(`src/bins/ppos/src/memory.rs`). -/
def round_up_with (v s : Nat) : Nat :=
  (v + s - 1) &&& ((2 ^ 64 - 1) ^^^ (s - 1))

def round_up (addr : Nat) : Nat := round_up_with addr PAGE_SIZE

/-- `SlabAllocator::get_size_and_index`. -/
def get_size_and_index (size : Nat) : Nat × Nat :=
  let size2 := round_up_with (next_power_of_two size) MIN_SLAB_SIZE
  (size2, trailing_zeros (size2 >>> MIN_SLAB_SIZE_SHIFT))

/-- `BuddyPageAllocator::get_order_from_layout`. -/
def get_order_from_layout (sz : Nat) : Nat := ilog2 (round_up sz / PAGE_SIZE)

/-- Slab allocator state: one head pointer per size class (`0` = null), the
byte memory the intrusive free lists live in, and the underlying buddy
allocator. -/
structure SlabAllocatorState where
  slab_heads : Nat → Nat
  mem : Mem
  buddy : Buddy.BuddyState

/-- Tail of `SlabNode::alloc_one` once a non-null head `hd` exists: read the
next free node out of the block (`self.0 = (*self.0).0`), then zero the
`size` bytes of the returned block. -/
def alloc_one_pop (s1 : SlabAllocatorState) (index size hd : Nat) :
    Nat × SlabAllocatorState :=
  let next := readWord s1.mem hd
  (hd, { s1 with
    mem := fillZero s1.mem hd size,
    slab_heads := fun i => if i = index then next else s1.slab_heads i })

/-- `SlabNode::alloc_one`: when the class head is null, grab a page from the
buddy allocator (layout `PAGE_SIZE`, its `unwrap` on out-of-memory is the
`none` result) and thread it into nodes, then pop the head and zero the
block. -/
def alloc_one (s : SlabAllocatorState) (index size : Nat) :
    Option (Nat × SlabAllocatorState) :=
  if s.slab_heads index = 0 then
    match Buddy.alloc_page s.buddy (get_order_from_layout PAGE_SIZE) with
    | .error _ => none
    | .ok (frame, buddy2) =>
      some (alloc_one_pop
        { s with mem := slab_node_init s.mem size frame, buddy := buddy2 }
        index size frame)
  else some (alloc_one_pop s index size (s.slab_heads index))

/-- `SlabAllocator::alloc(layout)`: sizes above `MAX_SLAB_SIZE` go straight
to the buddy allocator (which never writes into the returned block);
otherwise round to the size class and `alloc_one`. -/
def alloc (s : SlabAllocatorState) (layout_size : Nat) :
    Option (Nat × SlabAllocatorState) :=
  if MAX_SLAB_SIZE < layout_size then
    match Buddy.alloc_page s.buddy (get_order_from_layout layout_size) with
    | .error _ => none
    | .ok (addr, buddy2) => some (addr, { s with buddy := buddy2 })
  else
    let si := get_size_and_index layout_size
    alloc_one s si.2 si.1

end Slab

/-- An 8-byte-class slab state with a non-null head at address `64` and a
memory of all `7`s, over an exhausted buddy allocator. -/
def slabExample : Slab.SlabAllocatorState :=
  ⟨fun i => if i = 0 then 64 else 0, fun _ => 7, ⟨fun _ => [], (0, 0)⟩⟩

/-- A slab state over a buddy allocator with one free order-0 frame
(frame 3). -/
def slabExample2 : Slab.SlabAllocatorState :=
  ⟨fun _ => 0, fun _ => 7, ⟨fun o => if o = 0 then [3] else [], (0, 2 ^ 23)⟩⟩

/-! ## `lseek64` system call
`src/bins/ppos/src/system_call/lseek64.rs`; the dispatcher
(`src/bins/ppos/src/system_call.rs`) converts the raw third argument with
`(arg2 as i32).into()` before calling `lseek64`. -/

namespace Syscall

inductive Whence where
  | set
  | current
  | fromEnd
deriving DecidableEq, Repr

/-- `impl From<i32> for Whence`: `0/1/2` map to the three variants; any other
value hits `panic!("Invalid whence value")`, modelled as `none`. -/
def whence_from_i32 (value : Int) : Option Whence :=
  if value = 0 then some .set
  else if value = 1 then some .current
  else if value = 2 then some .fromEnd
  else none

/-- `lseek64(fd, offset, whence)` after the two table lookups: `file` is
`some (position, inode_size)`, or `none` when either lookup failed (each
returns `-1`).  Result: the syscall return value and the handle position
afterwards.  Arithmetic is exact; on the domain `size ≤ 2^63 - 1`,
`pos ≤ size` used by the claims it agrees observably with the wrapping `i64`
arithmetic of a release build, because a target that wraps negative is
exactly a target out of `[0, size]`. -/
def lseek64 (file : Option (Nat × Nat)) (offset : Int) (whence : Whence) :
    Int × Option Nat :=
  match file with
  | none => (-1, none)
  | some (pos, size) =>
    match whence with
    | .set =>
      if offset < 0 ∨ (size : Int) < offset then (-1, some pos)
      else (offset, some offset.toNat)
    | .current =>
      let target : Int := (pos : Int) + offset
      if target < 0 ∨ (size : Int) < target then (-1, some pos)
      else (target, some target.toNat)
    | .fromEnd =>
      if 0 < offset then (-1, some pos)
      else
        let target : Int := (size : Int) + offset
        if target < 0 then (-1, some pos)
        else (target, some target.toNat)

end Syscall

/-! ### Helper lemmas and claim theorems -/


theorem perm_insertIdx_cons {α : Type} (x : α) :
    ∀ (l : List α) (n : Nat), n ≤ l.length → List.Perm (l.insertIdx n x) (x :: l) := by
  intro l
  induction l with
  | nil =>
    intro n hn
    have hn0 : n = 0 := by simpa using hn
    subst hn0
    simp
  | cons a l ih =>
    intro n hn
    match n with
    | 0 => simp
    | n + 1 =>
      rw [List.insertIdx_succ_cons]
      exact ((ih n (by simpa using hn)).cons a).trans (List.Perm.swap x a l)

/-- C1.  The claim says that after freeing both halves of an order-1 block the
parent block is present in the order-1 free list.  Replaying exactly that on
`free_page` (free frame 1 at order 0, then frame 0 at order 0, over a 2-frame
region): `merge_buddy` does remove the buddy (frame 1) and escalate, but
`free_page` then pushes the freed frame back at the *original* order, so the
final state has order-1 list empty and frame 0 sitting at order 0 — frame 1
has left the free lists entirely.  This contradicts the code's own debug
output (`"Merge frame .. into frame .. . New val: order+1"`) and the spec's
"Buddy merge completeness" test property: the merged block is lost. -/
theorem buddy_free_merge_loses_parent :
    ∃ s1 s2, Buddy.free_page Buddy.twoFrameBusy 4096 0 = .ok s1 ∧
      Buddy.free_page s1 0 0 = .ok s2 ∧
      s2.frame_free_list 1 = [] ∧ s2.frame_free_list 0 = [0] := by
  refine ⟨_, _, rfl, rfl, rfl, rfl⟩

/-- C2, counterexample.  The claim says a popped non-Running task is
*discarded* from the run queue.  With queue `[Dead 1, Running 2]`,
`_schedule` pops the Dead task, pushes it back, loops, and switches to task 2
— the Dead task is still in the resulting run queue. -/
theorem schedule_keeps_dead_task :
    Sched.scheduleLoop 2 [⟨1, .Dead⟩, ⟨2, .Running⟩] =
      some (.switchTo ⟨2, .Running⟩ [⟨1, .Dead⟩, ⟨2, .Running⟩]) ∧
    (⟨1, .Dead⟩ : Sched.Task) ∈ [Sched.Task.mk 1 .Dead, ⟨2, .Running⟩] := by
  constructor
  · rfl
  · simp

/-- C2, amended.  `_schedule()` pops the front of the run queue and pushes the
popped task to the back unconditionally; if the popped task is Running it is
switched to, otherwise the loop continues (the non-Running task stays in the
queue — removal of Dead tasks is the idle sweep's job); an empty run queue is
a panic.  Formally: on an empty queue the loop panics, and when the queue is
`pre ++ t :: rest` with every task of `pre` non-Running and `t` Running, the
loop switches to `t` with resulting queue `rest ++ pre ++ [t]` — every task
of `pre` still present. -/
theorem schedule_rotates_and_switches (pre rest : List Sched.Task)
    (t : Sched.Task) (fuel : Nat)
    (hpre : ∀ u ∈ pre, u.state ≠ .Running) (ht : t.state = .Running) :
    Sched.scheduleLoop (fuel + 1) [] = some .panicEmpty ∧
    Sched.scheduleLoop (pre.length + 1) (pre ++ t :: rest) =
      some (.switchTo t (rest ++ pre ++ [t])) := by
  refine ⟨rfl, ?_⟩
  induction pre generalizing rest with
  | nil => simp [Sched.scheduleLoop, ht]
  | cons u pre ih =>
    have hu : u.state ≠ .Running := hpre u (by simp)
    have hrec := ih (rest ++ [u]) (fun v hv => hpre v (by simp [hv]))
    have step : Sched.scheduleLoop ((u :: pre).length + 1) ((u :: pre) ++ t :: rest)
        = Sched.scheduleLoop (pre.length + 1) (pre ++ t :: (rest ++ [u])) := by
      simp [Sched.scheduleLoop, hu, List.append_assoc]
    rw [step, hrec]
    simp

/-- Witness for `schedule_rotates_and_switches` at a concrete queue. -/
theorem schedule_rotates_and_switches_witness :
    Sched.scheduleLoop 2 [⟨7, .Dead⟩, ⟨8, .Running⟩, ⟨9, .Zombie⟩] =
      some (.switchTo ⟨8, .Running⟩ [⟨9, .Zombie⟩, ⟨7, .Dead⟩, ⟨8, .Running⟩]) :=
  (schedule_rotates_and_switches [⟨7, .Dead⟩] [⟨9, .Zombie⟩] ⟨8, .Running⟩ 0
    (by decide) (by decide)).2

namespace FST

theorem filled_zero {T : Type} (x : T) (S : Nat) : filled x S 0 = new T S := rfl

theorem filled_table_length {T : Type} (x : T) (S k : Nat) (hk : k ≤ S) :
    (filled x S k).table.length = S := by
  show (List.replicate k (some x) ++ List.replicate (S - k) none).length = S
  simp only [List.length_append, List.length_replicate]
  omega

theorem filled_table_get {T : Type} (x : T) {S k : Nat} (hk : k < S) (h) :
    (filled x S k).table.get ⟨k, h⟩ = none := by
  rw [List.get_eq_getElem]
  have h9 : (filled x S k).table[k]? = some none := by
    show (List.replicate k (some x) ++ List.replicate (S - k) none)[k]? = some none
    rw [List.getElem?_append_right (by simp)]
    simp only [List.length_replicate, Nat.sub_self, List.getElem?_replicate]
    rw [if_pos (by omega)]
  rw [List.getElem?_eq_getElem h] at h9
  exact Option.some_injective _ h9

theorem filled_set {T : Type} (x : T) {S k : Nat} (hk : k < S) :
    (filled x S k).table.set k (some x) =
      List.replicate (k + 1) (some x) ++ List.replicate (S - (k + 1)) none := by
  show (List.replicate k (some x) ++ List.replicate (S - k) none).set k (some x) = _
  rw [List.set_append_right _ _ (by simp)]
  simp only [List.length_replicate, Nat.sub_self]
  rw [show S - k = (S - (k + 1)) + 1 by omega, List.replicate_succ,
    List.set_cons_zero, List.replicate_succ', List.append_assoc,
    List.singleton_append]

/-- One successful step: with a free slot at the cursor and `k < S`,
`add` stores at index `k` and moves to the `k+1`-filled state, leaving
`amount` at `0`. -/
theorem add_filled {T : Type} (x : T) {S k : Nat} (hk : k < S) :
    add (filled x S k) x = .ok k (filled x S (k + 1)) := by
  have hlen : (filled x S k).table.length = S := filled_table_length x S k (by omega)
  have hklt : k < (filled x S k).table.length := by rw [hlen]; exact hk
  calc add (filled x S k) x
      = addLoop x ((filled x S k).table.length + 1) (filled x S k) k := by
        rw [add, if_neg (by rw [hlen]; show (0 : Nat) ≠ S; omega)]
        rfl
    _ = .ok k ⟨(filled x S k).table.set k (some x), k + 1, 0⟩ := by
        rw [addLoop, dif_pos hklt,
          show (filled x S k).table.get ⟨k, hklt⟩ = none from
            filled_table_get x hk hklt]
        rfl
    _ = .ok k (filled x S (k + 1)) := by
        rw [filled_set x hk]
        rfl

/-- After enough adds the cursor sits at `S` while `amount` is still `0`:
`add` passes the `is_full` guard and immediately indexes `table[S]` out of
bounds — a kernel panic instead of the claimed table-full error. -/
theorem add_full_panics {T : Type} (x y : T) {S : Nat} (hS : 0 < S) :
    add (filled x S S) y = .panic := by
  have hlen : (filled x S S).table.length = S := filled_table_length x S S (le_refl _)
  rw [add, if_neg (by rw [hlen]; show (0 : Nat) ≠ S; omega)]
  rw [addLoop, dif_neg (by rw [hlen]; show ¬ S < S; omega)]

theorem iterate_addOkState {T : Type} (x : T) (S : Nat) :
    ∀ k, k ≤ S → (fun t => addOkState t x)^[k] (new T S) = filled x S k := by
  intro k
  induction k with
  | zero => intro _; simp [filled_zero]
  | succ k ih =>
    intro hk
    rw [Function.iterate_succ_apply', ih (by omega), addOkState,
      add_filled x (by omega)]

end FST

set_option maxRecDepth 100000 in
/-- C3.  The claim says the 1025th concurrent `open` fails with an error and
that after a `close` a subsequent `open` succeeds.  In the code, `add` never
increments `amount`, so `is_full` never fires: after 1024 successful adds the
cursor is 1024 and the next `add` indexes `table[1024]` — an out-of-bounds
panic, not an error.  Worse, after removing an entry (a `close`) the cursor
is still 1024, so the next `add` panics as well instead of reusing the freed
slot. -/
theorem open_file_table_1025th_add_panics :
    (fun t => FST.addOkState t 0)^[1024] (FST.new Nat 1024) = FST.filled 0 1024 1024 ∧
    FST.add (FST.filled 0 1024 1024) 0 = .panic ∧
    (∃ v t', FST.remove (FST.filled 0 1024 1024) 5 = .ok (v, t') ∧
      FST.add t' 0 = .panic) := by
  refine ⟨FST.iterate_addOkState 0 1024 1024 (le_refl _),
    FST.add_full_panics 0 0 (by omega), 0, _, rfl, rfl⟩

namespace Timer

theorem sorted_le_getLast :
    ∀ (l : List TimeoutDescriptor) (h9 : l ≠ []) (x : TimeoutDescriptor),
      List.Sorted timeLE l → x ∈ l → x.time ≤ (l.getLast h9).time := by
  intro l
  induction l with
  | nil => intro h9; exact absurd rfl h9
  | cons a l ih =>
    intro h9 x hs hx
    match l with
    | [] =>
      simp only [List.mem_singleton] at hx
      subst hx
      exact le_refl _
    | b :: l2 =>
      rw [List.getLast_cons (List.cons_ne_nil b l2)]
      rcases List.mem_cons.mp hx with hxa | hxl
      · subst hxa
        exact le_trans
          ((List.sorted_cons.mp hs).1 _ (List.getLast_mem (List.cons_ne_nil b l2)))
          (le_refl _)
      · exact ih (List.cons_ne_nil b l2) x (List.sorted_cons.mp hs).2 hxl

theorem findIdx?_some_lt_length {p : TimeoutDescriptor → Bool}
    {l : List TimeoutDescriptor} {j : Nat} (h : l.findIdx? p = some j) :
    j < l.length := by
  rcases List.findIdx?_eq_some_iff_getElem.mp h with ⟨hj, _⟩
  exact hj

/-- Sortedness is preserved by the `O(n)` scan's insertion point: inserting
before the first element of the tail strictly past `t`, when the head is at
or before `t`. -/
theorem sorted_insertIdx_scan (t h : Nat) :
    ∀ (tl : List TimeoutDescriptor) (hd : TimeoutDescriptor) (j : Nat),
      List.Sorted timeLE (hd :: tl) → hd.time ≤ t →
      tl.findIdx? (fun d => decide (t < d.time)) = some j →
      List.Sorted timeLE ((hd :: tl).insertIdx (j + 1) ⟨t, h⟩) := by
  intro tl
  induction tl with
  | nil => intro hd j _ _ hfind; simp at hfind
  | cons d tl2 ih =>
    intro hd j hs hhd hfind
    rw [List.findIdx?_cons] at hfind
    by_cases htd : t < d.time
    · rw [if_pos (by simpa using htd)] at hfind
      cases hfind
      rw [show (0 : Nat) + 1 = 1 from rfl, List.insertIdx_succ_cons,
        List.insertIdx_zero]
      have hs1 := List.sorted_cons.mp hs
      have hs2 := List.sorted_cons.mp hs1.2
      refine List.sorted_cons.mpr ⟨?_, List.sorted_cons.mpr ⟨?_, hs1.2⟩⟩
      · intro b hb
        rcases List.mem_cons.mp hb with hb | hb
        · subst hb; exact hhd
        · exact hs1.1 b hb
      · intro b hb
        rcases List.mem_cons.mp hb with hb | hb
        · subst hb; exact le_of_lt htd
        · exact le_trans (le_of_lt htd) (hs2.1 b hb)
    · rw [if_neg (by simpa using htd), List.findIdx?_succ] at hfind
      rcases Option.map_eq_some'.mp hfind with ⟨j2, hj2, hj2e⟩
      subst hj2e
      rw [List.insertIdx_succ_cons]
      have hs1 := List.sorted_cons.mp hs
      have hs2 : List.Sorted timeLE (d :: tl2) := hs1.2
      have hdt : d.time ≤ t := le_of_not_lt htd
      have hrec := ih d j2 hs2 hdt hj2
      refine List.sorted_cons.mpr ⟨?_, hrec⟩
      intro b hb
      have hb2 := (List.mem_insertIdx
        (by have := findIdx?_some_lt_length hj2; simp only [List.length_cons]; omega)).mp hb
      rcases hb2 with hb2 | hb2
      · subst hb2; exact hhd
      · exact hs1.1 b hb2

end Timer

/-- C4, counterexample.  The claim says `CNTP_CVAL_EL0` is reprogrammed iff
the head of the timeout list changed.  With list `[(10,h0), (30,h1)]`,
`CVAL = 10`, inserting a deadline of `20` (now `5`, duration `15`) goes
through the middle-insertion path: the head is still the `(10,h0)`
descriptor, yet `CVAL` is rewritten from `10` to `20`. -/
theorem timer_reprograms_cval_without_head_change :
    Timer.set_timeout_raw ⟨[⟨10, 0⟩, ⟨30, 1⟩], 10⟩ 5 15 2 =
      some ⟨[⟨10, 0⟩, ⟨20, 2⟩, ⟨30, 1⟩], 20⟩ ∧
    ([⟨10, 0⟩, ⟨20, 2⟩, ⟨30, 1⟩] : List Timer.TimeoutDescriptor).head? =
      ([⟨10, 0⟩, ⟨30, 1⟩] : List Timer.TimeoutDescriptor).head? ∧
    (10 : Nat) ≠ 20 := by
  refine ⟨by decide, rfl, by decide⟩

/-- C4, amended.  `set_timeout_raw` computes `deadline = now + duration` and
inserts in deadline order, but the compare register is written whenever the
descriptor is *not* appended at the back: both when it becomes the new head
(programmed to the new head's deadline, as the claim says) and when it is
inserted in the middle (programmed to the *inserted* deadline while the head
is unchanged); only a strict back-append leaves `CNTP_CVAL_EL0` untouched,
and a deadline that ties the current maximum without beating the head makes
the scan fall through to `panic!("unreachable")`. -/
theorem set_timeout_raw_characterization (s : Timer.TimerState)
    (now duration handler : Nat)
    (hsorted : List.Sorted Timer.timeLE s.list) :
    (s.list = [] → Timer.set_timeout_raw s now duration handler =
      some ⟨[⟨now + duration, handler⟩], now + duration⟩) ∧
    (∀ hd tl, s.list = hd :: tl →
      (now + duration < hd.time →
        Timer.set_timeout_raw s now duration handler =
          some ⟨⟨now + duration, handler⟩ :: s.list, now + duration⟩) ∧
      (hd.time ≤ now + duration →
        (((hd :: tl).getLast (List.cons_ne_nil hd tl)).time < now + duration →
          Timer.set_timeout_raw s now duration handler =
            some ⟨s.list ++ [⟨now + duration, handler⟩], s.cval⟩) ∧
        (now + duration < ((hd :: tl).getLast (List.cons_ne_nil hd tl)).time →
          ∃ l, Timer.set_timeout_raw s now duration handler =
              some ⟨l, now + duration⟩ ∧
            List.Sorted Timer.timeLE l ∧
            List.Perm l (⟨now + duration, handler⟩ :: s.list) ∧
            l.head? = some hd) ∧
        (((hd :: tl).getLast (List.cons_ne_nil hd tl)).time = now + duration →
          Timer.set_timeout_raw s now duration handler = none))) := by
  constructor
  · intro hnil
    rw [Timer.set_timeout_raw, hnil, Timer.set_timeout_insert]
  · intro hd tl hcons
    have hs2 : List.Sorted Timer.timeLE (hd :: tl) := hcons ▸ hsorted
    refine ⟨?_, ?_⟩
    · intro hlt
      rw [Timer.set_timeout_raw, hcons, Timer.set_timeout_insert, if_pos hlt]
    · intro hge
      refine ⟨?_, ?_, ?_⟩
      · intro hback
        rw [Timer.set_timeout_raw, hcons, Timer.set_timeout_insert,
          if_neg (by omega), if_pos hback]
      · intro hmid
        have htl : tl ≠ [] := by
          intro he
          subst he
          simp only [List.getLast_singleton] at hmid
          omega
        have hlastmem : (hd :: tl).getLast (List.cons_ne_nil hd tl) ∈ tl := by
          rw [List.getLast_cons htl]
          exact List.getLast_mem htl
        have hj : tl.findIdx? (fun d => decide (now + duration < d.time)) =
            some (tl.findIdx (fun d => decide (now + duration < d.time))) :=
          List.findIdx?_eq_some_of_exists ⟨_, hlastmem, by simpa using hmid⟩
        refine ⟨(hd :: tl).insertIdx
          (tl.findIdx (fun d => decide (now + duration < d.time)) + 1)
          ⟨now + duration, handler⟩, ?_, ?_, ?_, ?_⟩
        · rw [Timer.set_timeout_raw, hcons, Timer.set_timeout_insert,
            if_neg (by omega), if_neg (by omega), hj]
        · exact Timer.sorted_insertIdx_scan _ _ tl hd _ hs2 hge hj
        · rw [hcons]
          exact perm_insertIdx_cons _ _ _
            (by have := Timer.findIdx?_some_lt_length hj
                simp only [List.length_cons]; omega)
        · rw [List.insertIdx_succ_cons]
          rfl
      · intro htie
        have hnone : tl.findIdx? (fun d => decide (now + duration < d.time)) =
            none := by
          rw [List.findIdx?_eq_none_iff]
          intro x hx
          have hle := Timer.sorted_le_getLast (hd :: tl) (List.cons_ne_nil hd tl) x
            hs2 (List.mem_cons_of_mem hd hx)
          simp only [decide_eq_false_iff_not]
          omega
        rw [Timer.set_timeout_raw, hcons, Timer.set_timeout_insert,
          if_neg (by omega), if_neg (by omega), hnone]

/-- Witness for `set_timeout_raw_characterization`: a strict back-append on a
sorted one-element list leaves `CNTP_CVAL_EL0` untouched. -/
theorem set_timeout_raw_characterization_witness :
    Timer.set_timeout_raw ⟨[⟨10, 0⟩], 10⟩ 20 0 1 =
      some ⟨[⟨10, 0⟩, ⟨20, 1⟩], 10⟩ :=
  (((set_timeout_raw_characterization ⟨[⟨10, 0⟩], 10⟩ 20 0 1
    (by simp [Timer.timeLE])).2 ⟨10, 0⟩ [] rfl).2 (by decide)).1 (by decide)

namespace MMap

/-- For a non-empty request against non-empty regions, the source's
four-disjunct test is exactly byte intersection. -/
theorem is_overlaps_iff {list : List MemoryMappingInfo} {virt_addr size : Nat}
    (hreg : ∀ r ∈ list, 0 < r.size) (hsz : 0 < size) :
    is_overlaps list virt_addr size = true ↔
      ∃ r ∈ list, intersects r virt_addr size := by
  rw [is_overlaps, List.any_eq_true]
  constructor
  · rintro ⟨r, hr, hcond⟩
    refine ⟨r, hr, ?_⟩
    have := hreg r hr
    simp only [decide_eq_true_eq] at hcond
    unfold intersects
    omega
  · rintro ⟨r, hr, hint⟩
    refine ⟨r, hr, ?_⟩
    have := hreg r hr
    unfold intersects at hint
    simp only [decide_eq_true_eq]
    omega

/-- Inserting at the partition point keeps the list sorted by `virt_addr`. -/
theorem sorted_insertIdx_partition (new : MemoryMappingInfo) :
    ∀ (list : List MemoryMappingInfo), List.Sorted vaLE list →
      List.Sorted vaLE (list.insertIdx
        (list.takeWhile (fun x => decide (x.virt_addr < new.virt_addr))).length
        new) := by
  intro list
  induction list with
  | nil => intro _; simp
  | cons r rest ih =>
    intro hs
    have hs1 := List.sorted_cons.mp hs
    by_cases hlt : r.virt_addr < new.virt_addr
    · rw [List.takeWhile_cons, if_pos (by simpa using hlt)]
      simp only [List.length_cons, List.insertIdx_succ_cons]
      refine List.sorted_cons.mpr ⟨?_, ih hs1.2⟩
      intro b hb
      have hlen : (rest.takeWhile
          (fun x => decide (x.virt_addr < new.virt_addr))).length ≤ rest.length :=
        (List.takeWhile_sublist _).length_le
      rcases (List.mem_insertIdx hlen).mp hb with hb | hb
      · subst hb; exact le_of_lt hlt
      · exact hs1.1 b hb
    · rw [List.takeWhile_cons, if_neg (by simpa using hlt)]
      simp only [List.length_nil, List.insertIdx_zero]
      refine List.sorted_cons.mpr ⟨?_, hs⟩
      intro b hb
      have hnle : new.virt_addr ≤ r.virt_addr := le_of_not_lt hlt
      rcases List.mem_cons.mp hb with hb | hb
      · subst hb; exact hnle
      · exact le_trans hnle (hs1.1 b hb)

theorem takeWhile_length_le {list : List MemoryMappingInfo} (p : MemoryMappingInfo → Bool) :
    (list.takeWhile p).length ≤ list.length :=
  (List.takeWhile_sublist _).length_le

end MMap

/-- C5, counterexample.  Two concrete refutations of the claim as stated:
(a) a zero-size request at address `0` against the single region
`[0, 0x1000)` shares **no** byte with it, yet `map_pages` rejects it
(`new_start` lies inside the region, so the first disjunct of `is_overlaps`
fires); (b) a request on an *empty* region list intersects nothing, yet
`map_pages` errors when `phys_addr` is `None` while a backing buffer is
supplied. -/
theorem map_pages_counterexample :
    MMap.map_pages [⟨0, none, 0, 0, 0, 0x1000, none⟩] 0 none 0 0 0 0 none =
      .error "MemoryMappingInfo overlaps" ∧
    MMap.map_pages [] 0 none 0x1000 0 0 0 (some 1) =
      .error "phys_addr is required when physical_memory is provided" := by
  exact ⟨rfl, rfl⟩

/-- C5, amended.  For requests of at least one byte whose arguments are
consistent (`physical_memory = Some` requires `phys_addr = Some`), against a
`virt_addr`-sorted list of regions of at least one byte each: `map_pages`
fails with the overlap error exactly when the requested byte range intersects
some region, and otherwise inserts the new region at the partition point,
keeping the list sorted — no other state (in particular no page table) is
touched. -/
theorem map_pages_characterization (list : List MMap.MemoryMappingInfo)
    (virt_addr size ma ap ep : Nat) (phys_addr physical_memory : Option Nat)
    (hreg : ∀ r ∈ list, 0 < r.size) (hsz : 0 < size)
    (hcons : physical_memory.isSome → phys_addr.isSome)
    (hsorted : List.Sorted MMap.vaLE list) :
    ((∃ r ∈ list, MMap.intersects r virt_addr size) →
      MMap.map_pages list virt_addr phys_addr size ma ap ep physical_memory =
        .error "MemoryMappingInfo overlaps") ∧
    ((¬ ∃ r ∈ list, MMap.intersects r virt_addr size) →
      MMap.map_pages list virt_addr phys_addr size ma ap ep physical_memory =
        .ok (list.insertIdx
          (list.takeWhile (fun x => decide (x.virt_addr < virt_addr))).length
          ⟨virt_addr, phys_addr, ma, ap, ep, size, physical_memory⟩) ∧
      List.Sorted MMap.vaLE (list.insertIdx
        (list.takeWhile (fun x => decide (x.virt_addr < virt_addr))).length
        ⟨virt_addr, phys_addr, ma, ap, ep, size, physical_memory⟩) ∧
      List.Perm (list.insertIdx
          (list.takeWhile (fun x => decide (x.virt_addr < virt_addr))).length
          ⟨virt_addr, phys_addr, ma, ap, ep, size, physical_memory⟩)
        (⟨virt_addr, phys_addr, ma, ap, ep, size, physical_memory⟩ :: list)) := by
  have hnofirst : ¬ (phys_addr.isNone ∧ physical_memory.isSome) := by
    rintro ⟨h1, h2⟩
    have := hcons h2
    simp [Option.isNone_iff_eq_none.mp h1] at this
  constructor
  · intro hint
    rw [MMap.map_pages, if_neg hnofirst,
      if_pos ((MMap.is_overlaps_iff hreg hsz).mpr hint)]
  · intro hnint
    refine ⟨?_, ?_, ?_⟩
    · rw [MMap.map_pages, if_neg hnofirst, if_neg (by
        intro hov
        exact hnint ((MMap.is_overlaps_iff hreg hsz).mp hov))]
    · exact MMap.sorted_insertIdx_partition _ list hsorted
    · exact perm_insertIdx_cons _ list _ (MMap.takeWhile_length_le _)

/-- Witness for `map_pages_characterization`: inserting `[0x3000, 0x4000)`
between two existing regions succeeds and lands in the middle, sorted. -/
theorem map_pages_characterization_witness :
    MMap.map_pages [⟨0, none, 0, 0, 0, 0x1000, none⟩,
        ⟨0x5000, none, 0, 0, 0, 0x1000, none⟩] 0x3000 none 0x1000 0 0 0 none =
      .ok [⟨0, none, 0, 0, 0, 0x1000, none⟩,
        ⟨0x3000, none, 0, 0, 0, 0x1000, none⟩,
        ⟨0x5000, none, 0, 0, 0, 0x1000, none⟩] := by
  have h := (map_pages_characterization
    [⟨0, none, 0, 0, 0, 0x1000, none⟩, ⟨0x5000, none, 0, 0, 0, 0x1000, none⟩]
    0x3000 0x1000 0 0 0 none none
    (by decide) (by decide) (by simp)
    (by simp [MMap.vaLE])).2 (by decide)
  exact h.1

/-- C6.  The claim says `get_available_virt_addr` returns the first
sufficient hole, in particular a valid address when that hole lies after the
last region.  With the single region `[0, 0x1000)` and a request of `0x1000`
bytes, the loop advances `i` to `1` and then indexes
`memory_mapping_info_list[1]` of a one-element vector: an out-of-bounds
panic, where the claim (and the function's own error-return design) expects
`0x1000`. -/
theorem get_available_virt_addr_panics :
    MMap.get_available_virt_addr [⟨0, none, 0, 0, 0, 0x1000, none⟩] 0x1000 =
      .panic ∧
    MMap.get_available_virt_addr [] 0x1000 = .ok 0 := by
  exact ⟨by decide, by decide⟩

namespace Tmpfs

/-- Release-build `usize` subtraction `L - pos` for `pos ≤ L < 2^64`. -/
theorem wrap_sub {L pos : Nat} (h : pos ≤ L) (hL : L < USIZE_MOD) :
    (L + USIZE_MOD - pos) % USIZE_MOD = L - pos := by
  rw [show L + USIZE_MOD - pos = USIZE_MOD + (L - pos) by omega,
    Nat.add_mod_left, Nat.mod_eq_of_lt (by omega)]

end Tmpfs

/-- C7, counterexample.  Two refutations of "read at or past EOF returns 0":
(a) a tmpfs file that has never been written has `content = None`, and `read`
returns the error `"No content in the inode"` (surfacing as `-1` through the
`read` syscall), not `0`; (b) with one byte of content and the position at
`2` — strictly past the end — the `usize` length subtraction wraps and the
copy loop indexes out of bounds: a panic, not `0`. -/
theorem tmpfs_read_eof_counterexample :
    Tmpfs.read none 0 [] 4 = .error "No content in the inode" ∧
    Tmpfs.read (some [7]) 2 [0] 1 = .panic := by
  exact ⟨rfl, rfl⟩

/-- C7, amended.  On a tmpfs file whose content *is* allocated, `read`
returns `0` when the position is exactly at the end, or when the content is
empty (any position); a never-written file (content `None`) yields
`Err("No content in the inode")` instead, and a position strictly past the
end of non-empty content is a panic, not a `0` return. -/
theorem tmpfs_read_at_end_returns_zero (c buf : List Nat) (pos len : Nat)
    (hL : c.length < Tmpfs.USIZE_MOD)
    (hend : pos = c.length ∨ c.length = 0) :
    Tmpfs.read (some c) pos buf len = .ok 0 pos buf := by
  by_cases hc : c.length = 0
  · rw [Tmpfs.read]
    simp only [if_pos hc]
  · have hp : pos = c.length := hend.resolve_right hc
    rw [Tmpfs.read]
    simp only [if_neg hc]
    rw [show (c.length + Tmpfs.USIZE_MOD - pos) % Tmpfs.USIZE_MOD = c.length - pos
      from Tmpfs.wrap_sub (le_of_eq hp) hL]
    rw [hp, Nat.sub_self]
    simp [Tmpfs.copyLoop]

/-- Witness for `tmpfs_read_at_end_returns_zero`: one byte of content, with
the position at its end. -/
theorem tmpfs_read_at_end_returns_zero_witness :
    Tmpfs.read (some [3]) 1 [9] 5 = .ok 0 1 [9] :=
  tmpfs_read_at_end_returns_zero [3] [9] 1 5 (by decide) (Or.inl rfl)

/-- C9.  First write to a tmpfs file (content not yet allocated): `len` bytes
of `buf` are copied into a fresh buffer, `len` is returned, and the handle
position is *unchanged*; every subsequent write copies
`buf[start..start+write_len]` over the content and sets the position to
`start + write_len`, returning `write_len = min(content.len() - start, len)`.
(The stated bounds keep the copy loops inside both slices; outside them the
Rust code panics rather than writing.) -/
theorem tmpfs_write_first_vs_subsequent (c buf : List Nat) (pos len : Nat)
    (h1 : len ≤ buf.length)
    (h2 : pos ≤ c.length) (h3 : c.length < Tmpfs.USIZE_MOD)
    (h4 : pos + min (c.length - pos) len ≤ buf.length) :
    Tmpfs.write none pos buf len =
      .ok len (Tmpfs.writeLoop buf len 0 (List.replicate len 0)) pos ∧
    Tmpfs.write (some c) pos buf len =
      .ok (min (c.length - pos) len)
        (Tmpfs.writeLoop buf (min (c.length - pos) len) pos c)
        (pos + min (c.length - pos) len) := by
  constructor
  · rw [Tmpfs.write, if_pos h1]
  · rw [Tmpfs.write]
    rw [show (c.length + Tmpfs.USIZE_MOD - pos) % Tmpfs.USIZE_MOD = c.length - pos
      from Tmpfs.wrap_sub h2 h3]
    rw [if_pos (Or.inr ⟨by omega, h4⟩)]

/-- Witness for `tmpfs_write_first_vs_subsequent`: first write leaves the
position at `0` while returning `2`; a subsequent write at position `1`
advances the position to `3`. -/
theorem tmpfs_write_first_vs_subsequent_witness :
    Tmpfs.write none 0 [1, 2, 3] 2 = .ok 2 [1, 2] 0 ∧
    Tmpfs.write (some [5, 6, 7, 8]) 1 [9, 9, 9, 9] 2 = .ok 2 [5, 9, 9, 8] 3 :=
  tmpfs_write_first_vs_subsequent [5, 6, 7, 8] [1, 2, 3] 0 2
      (by decide) (by decide) (by decide) (by decide) |>.imp
    (fun h => h.trans (by decide))
    (fun h => by
      exact (tmpfs_write_first_vs_subsequent [5, 6, 7, 8] [9, 9, 9, 9] 1 2
        (by decide) (by decide) (by decide) (by decide)).2.trans (by decide))

namespace Slab

theorem fillZero_out : ∀ (n : Nat) (m : Mem) (a x : Nat), x < a →
    fillZero m a n x = m x := by
  intro n
  induction n with
  | zero => intro m a x _; rfl
  | succ n ih =>
    intro m a x hx
    rw [fillZero, ih _ _ _ (by omega), writeByte, if_neg (by omega)]

theorem fillZero_in : ∀ (n : Nat) (m : Mem) (a i : Nat), i < n →
    fillZero m a n (a + i) = 0 := by
  intro n
  induction n with
  | zero => intro m a i hi; omega
  | succ n ih =>
    intro m a i hi
    match i with
    | 0 =>
      rw [fillZero, fillZero_out _ _ _ _ (by omega), writeByte, if_pos (by omega)]
    | j + 1 =>
      rw [fillZero, show a + (j + 1) = (a + 1) + j by omega]
      exact ih _ _ _ (by omega)

/-- Whatever path `alloc_one` takes, the returned pointer's block was just
zero-filled over the class size. -/
theorem alloc_one_mem (s : SlabAllocatorState) (index size p : Nat)
    (s2 : SlabAllocatorState) (h : alloc_one s index size = some (p, s2)) :
    ∃ s1 : SlabAllocatorState, s2.mem = fillZero s1.mem p size := by
  rw [alloc_one] at h
  by_cases hhd : s.slab_heads index = 0
  · rw [if_pos hhd] at h
    cases hb : Buddy.alloc_page s.buddy (get_order_from_layout PAGE_SIZE) with
    | error e => rw [hb] at h; simp at h
    | ok v =>
      obtain ⟨frame, buddy2⟩ := v
      rw [hb] at h
      simp only [alloc_one_pop, Option.some_inj, Prod.mk.injEq] at h
      obtain ⟨hp, hs⟩ := h
      subst hp
      refine ⟨{ s with mem := slab_node_init s.mem size frame, buddy := buddy2 }, ?_⟩
      rw [← hs]
  · rw [if_neg hhd] at h
    simp only [alloc_one_pop, Option.some_inj, Prod.mk.injEq] at h
    obtain ⟨hp, hs⟩ := h
    subst hp
    refine ⟨s, ?_⟩
    rw [← hs]

end Slab

/-- C8.  `SlabAllocator::alloc` for layouts of at most `1024` bytes returns a
block all of whose bytes — over the full rounded-up class size — have just
been zero-filled (`alloc_one`'s `fill(0)`); layouts above `1024` bytes are
delegated to the buddy allocator, which hands back an address without
touching memory. -/
theorem slab_alloc_zero_fill (s : Slab.SlabAllocatorState)
    (layout_size p : Nat) (s2 : Slab.SlabAllocatorState) :
    (layout_size ≤ Slab.MAX_SLAB_SIZE → Slab.alloc s layout_size = some (p, s2) →
      ∀ i, i < (Slab.get_size_and_index layout_size).1 → s2.mem (p + i) = 0) ∧
    (Slab.MAX_SLAB_SIZE < layout_size → Slab.alloc s layout_size = some (p, s2) →
      s2.mem = s.mem) := by
  constructor
  · intro hle halloc i hi
    rw [Slab.alloc, if_neg (by omega)] at halloc
    obtain ⟨s1, hmem⟩ := Slab.alloc_one_mem _ _ _ _ _ halloc
    rw [hmem]
    exact Slab.fillZero_in _ _ _ _ hi
  · intro hgt halloc
    rw [Slab.alloc, if_pos hgt] at halloc
    cases hb : Buddy.alloc_page s.buddy (Slab.get_order_from_layout layout_size) with
    | error e => rw [hb] at halloc; simp at halloc
    | ok v =>
      obtain ⟨addr, buddy2⟩ := v
      rw [hb] at halloc
      simp only [Option.some_inj, Prod.mk.injEq] at halloc
      rw [← halloc.2]

/-- Witness for `slab_alloc_zero_fill`: a 5-byte request is served from the
8-byte class and the block's first and last class bytes read back `0`; a
2000-byte request goes to the buddy allocator and leaves memory untouched
(it reads back the old `7`). -/
theorem slab_alloc_zero_fill_witness :
    (∃ s2, Slab.alloc slabExample 5 = some (64, s2) ∧
      s2.mem 64 = 0 ∧ s2.mem 71 = 0) ∧
    (∃ s2, Slab.alloc slabExample2 2000 = some (12288, s2) ∧
      s2.mem 64 = 7) := by
  constructor
  · refine ⟨_, rfl, ?_, ?_⟩
    · exact (slab_alloc_zero_fill slabExample 5 64 _).1 (by decide) rfl 0 (by decide)
    · exact (slab_alloc_zero_fill slabExample 5 64 _).1 (by decide) rfl 7 (by decide)
  · refine ⟨_, rfl, ?_⟩
    rw [(slab_alloc_zero_fill slabExample2 2000 12288 _).2 (by decide) rfl]
    rfl

/-- C10.  The `Whence` conversion has no error branch: any whence value
outside `{0, 1, 2}` panics the kernel (`panic!("Invalid whence value")`)
instead of returning `-1`; for whence in `{0, 1, 2}` the call either returns
`-1` (leaving the position untouched) or returns the new absolute position
`t`, which is within the file's bounds `[0, size]` and becomes the handle's
position. -/
theorem lseek64_whence_behavior (w : Int) (file : Option (Nat × Nat))
    (offset : Int) :
    ((w ≠ 0 ∧ w ≠ 1 ∧ w ≠ 2) → Syscall.whence_from_i32 w = none) ∧
    (∀ wh pos size, Syscall.whence_from_i32 w = some wh →
      file = some (pos, size) →
      Syscall.lseek64 file offset wh = (-1, some pos) ∨
      ∃ t : Int, 0 ≤ t ∧ t ≤ (size : Int) ∧
        Syscall.lseek64 file offset wh = (t, some t.toNat)) := by
  constructor
  · rintro ⟨h0, h1, h2⟩
    rw [Syscall.whence_from_i32, if_neg h0, if_neg h1, if_neg h2]
  · intro wh pos size _ hfile
    subst hfile
    cases wh with
    | set =>
      rw [Syscall.lseek64]
      by_cases hc : offset < 0 ∨ (size : Int) < offset
      · rw [if_pos hc]; exact Or.inl rfl
      · rw [if_neg hc]
        exact Or.inr ⟨offset, by omega, by omega, rfl⟩
    | current =>
      rw [Syscall.lseek64]
      by_cases hc : (pos : Int) + offset < 0 ∨ (size : Int) < (pos : Int) + offset
      · rw [if_pos hc]; exact Or.inl rfl
      · rw [if_neg hc]
        exact Or.inr ⟨(pos : Int) + offset, by omega, by omega, rfl⟩
    | fromEnd =>
      rw [Syscall.lseek64]
      by_cases hc : 0 < offset
      · rw [if_pos hc]; exact Or.inl rfl
      · rw [if_neg hc]
        by_cases hc2 : (size : Int) + offset < 0
        · rw [if_pos hc2]; exact Or.inl rfl
        · rw [if_neg hc2]
          exact Or.inr ⟨(size : Int) + offset, by omega, by omega, rfl⟩

/-- Witness for `lseek64_whence_behavior`: whence `5` panics the conversion;
`lseek64(fd, 3, SEEK_CUR)` at position `2` of a 10-byte file returns `5` and
moves the handle there. -/
theorem lseek64_whence_behavior_witness :
    Syscall.whence_from_i32 5 = none ∧
    Syscall.lseek64 (some (2, 10)) 3 .current = (5, some 5) := by
  constructor
  · exact (lseek64_whence_behavior 5 none 0).1 (by decide)
  · rcases (lseek64_whence_behavior 1 (some (2, 10)) 3).2 .current 2 10 rfl rfl
      with h | ⟨t, _, _, ht⟩
    · exact absurd h (by decide)
    · have heq : ((5 : Int), some (5 : Nat)) = (t, some t.toNat) := by
        rw [← ht]; decide
      exact ht.trans heq.symm

end Ppos
